import Mathlib

/-!
Shallow embedding of the radar tracking core (CV Kalman filter, measurement
grouper, JPDA associator, coordinate transforms, track manager) of the
repository, together with theorems settling the frozen claims about it.

Numeric convention: the Python floats are modelled exactly, over `ℚ` for the
purely arithmetic operations (filter seeding / predict / update, the grouper,
the track manager) and over `ℝ` where transcendental functions enter (the
Gaussian likelihood of the associator, the spherical transforms).
A raised Python exception (`IndexError`, `numpy.linalg.LinAlgError`) is
modelled as `Option.none`.

The file is laid out definitions first, then the lemmas and the claim
theorems.
-/

namespace Augg

/-- A measurement tuple `(r, az, el, t)` as the source passes it around;
index 3 of the Python tuple is the timestamp. -/
abbrev Meas (K : Type) := K × K × K × K

/-- `measurement[3]`, the timestamp component of a measurement tuple. -/
def measTime {K : Type} (m : Meas K) : K := m.2.2.2

/-! ## form_measurement_groups (of.py lines 100-116, test1.py lines 123-139)

The Python loop carries the accumulated list of closed groups, the current
group and `base_time`; after the loop a non-empty current group is flushed.
`measurements[0][3]` is read before the loop, so an empty input raises
`IndexError`, modelled by `none`. -/

/-- The `for measurement in measurements` loop of `form_measurement_groups`,
followed by the final `if current_group:` flush. -/
def fmgLoop {K : Type} [LinearOrderedField K] (maxd : K) :
    List (Meas K) → List (List (Meas K)) → List (Meas K) → K → List (List (Meas K))
  | [], groups, cur, _ => if cur.isEmpty then groups else groups ++ [cur]
  | m :: rest, groups, cur, base =>
      if measTime m - base ≤ maxd then fmgLoop maxd rest groups (cur ++ [m]) base
      else fmgLoop maxd rest (groups ++ [cur]) [m] (measTime m)

/-- `form_measurement_groups(measurements, max_time_diff)`. The unconditional
read of `measurements[0][3]` makes the empty input fail (`IndexError`). -/
def form_measurement_groups {K : Type} [LinearOrderedField K]
    (measurements : List (Meas K)) (max_time_diff : K) :
    Option (List (List (Meas K))) :=
  match measurements with
  | [] => none
  | m0 :: _ => some (fmgLoop max_time_diff measurements [] [] (measTime m0))

/-- A group spans at most `maxd` measured from its first element's timestamp. -/
def SpanOK {K : Type} [LinearOrderedField K] (maxd : K) (g : List (Meas K)) : Prop :=
  ∀ x ∈ g.head?, ∀ m ∈ g, measTime m - measTime x ≤ maxd

/-! ## 3x3 determinant and inverse

`numpy.linalg.inv` computes the exact inverse and raises `LinAlgError` on a
singular matrix; the exact-arithmetic model is `(det)⁻¹ • adjugate`, and the
caller checks the determinant. -/

/-- Cofactor expansion of a 3x3 determinant (what `np.linalg.inv`'s
singularity test amounts to in exact arithmetic). -/
def det3 {K : Type} [CommRing K] (A : Matrix (Fin 3) (Fin 3) K) : K :=
  A 0 0 * (A 1 1 * A 2 2 - A 1 2 * A 2 1) - A 0 1 * (A 1 0 * A 2 2 - A 1 2 * A 2 0)
    + A 0 2 * (A 1 0 * A 2 1 - A 1 1 * A 2 0)

/-- The exact 3x3 matrix inverse `(det)⁻¹ • adjugate` (equal to Mathlib's
`A⁻¹`, see `inv3_eq_inv`). -/
def inv3 {K : Type} [Field K] (A : Matrix (Fin 3) (Fin 3) K) : Matrix (Fin 3) (Fin 3) K :=
  (det3 A)⁻¹ • A.adjugate

/-! ## CVFilter (of.py lines 14-96, test1.py lines 9-90)

One field per Python attribute. `vx`, `vy`, `vz` are created dynamically by
the second call to `initialize_filter_state`; before that, reading them is an
`AttributeError`, so they are `Option`s starting at `none`. -/

structure CVFilter (K : Type) where
  Sf : Fin 6 → K
  Pf : Matrix (Fin 6) (Fin 6) K
  Sp : Fin 6 → K
  Pp : Matrix (Fin 6) (Fin 6) K
  plant_noise : K
  H : Matrix (Fin 3) (Fin 6) K
  R : Matrix (Fin 3) (Fin 3) K
  Meas_Time : K
  prev_Time : K
  Q : Matrix (Fin 6) (Fin 6) K
  Phi : Matrix (Fin 6) (Fin 6) K
  Z : Fin 3 → K
  Z1 : Fin 3 → K
  Z2 : Fin 3 → K
  first_rep_flag : Bool
  second_rep_flag : Bool
  gate_threshold : K
  vx : Option K
  vy : Option K
  vz : Option K

/-- `CVFilter.__init__`: `np.eye(3, 6)` has a one where the row and column
indices agree. -/
def CVFilter.mkInit (K : Type) [Field K] : CVFilter K where
  Sf := 0
  Pf := 1
  Sp := 0
  Pp := 1
  plant_noise := 20
  H := Matrix.of fun i j => if (i : ℕ) = (j : ℕ) then 1 else 0
  R := 1
  Meas_Time := 0
  prev_Time := 0
  Q := 1
  Phi := 1
  Z := 0
  Z1 := 0
  Z2 := 0
  first_rep_flag := false
  second_rep_flag := false
  gate_threshold := 900021 / 100
  vx := none
  vy := none
  vz := none

/-- `initialize_filter_state(x, y, z, vx, vy, vz, time)` (the velocity
arguments are accepted and ignored by the source, as here). -/
def CVFilter.initialize_filter_state {K : Type} [Field K] (kf : CVFilter K)
    (x y z _vx0 _vy0 _vz0 time : K) : CVFilter K :=
  if !kf.first_rep_flag then
    { kf with
      Z1 := ![x, y, z]
      Sf := fun i => if i = 0 then x else if i = 1 then y else if i = 2 then z else kf.Sf i
      Meas_Time := time
      prev_Time := time
      first_rep_flag := true }
  else if !kf.second_rep_flag then
    { kf with
      Z2 := ![x, y, z]
      prev_Time := kf.Meas_Time
      Meas_Time := time
      vx := some ((kf.Z1 0 - x) / (time - kf.Meas_Time))
      vy := some ((kf.Z1 1 - y) / (time - kf.Meas_Time))
      vz := some ((kf.Z1 2 - z) / (time - kf.Meas_Time))
      second_rep_flag := true }
  else
    { kf with
      Z := ![x, y, z]
      prev_Time := kf.Meas_Time
      Meas_Time := time }

/-- The positions `(0,3), (1,4), (2,5)` that `predict_step` overwrites in
`Phi` (also the upper position/velocity cross block of `Q`). -/
abbrev PhiPat (i j : Fin 6) : Prop := (i = 0 ∧ j = 3) ∨ (i = 1 ∧ j = 4) ∨ (i = 2 ∧ j = 5)

/-- The diagonal position block `(0,0), (1,1), (2,2)` of `Q`. -/
abbrev QPosPat (i j : Fin 6) : Prop := (i = 0 ∧ j = 0) ∨ (i = 1 ∧ j = 1) ∨ (i = 2 ∧ j = 2)

/-- The twelve cross positions of `Q`: `(0,3), (1,4), (2,5)` and their
transposes. -/
abbrev QCrossPat (i j : Fin 6) : Prop := PhiPat i j ∨ PhiPat j i

/-- The diagonal velocity block `(3,3), (4,4), (5,5)` of `Q`. -/
abbrev QVelPat (i j : Fin 6) : Prop := (i = 3 ∧ j = 3) ∨ (i = 4 ∧ j = 4) ∨ (i = 5 ∧ j = 5)

/-- `predict_step(current_time)`: entry assignments into the persistent
`Phi` and `Q`, followed by the element-wise scaling `Q = Q * plant_noise`,
`Sp = Phi @ Sf`, `Pp = Phi @ Pf @ Phi.T + Q`, `Meas_Time = current_time`.
`prev_Time` is not touched. Note `T_3 = dt*dt*dt/3.0`. -/
def CVFilter.predict_step {K : Type} [Field K] (kf : CVFilter K) (current_time : K) :
    CVFilter K :=
  let dt := current_time - kf.prev_Time
  let T_2 := dt * dt / 2
  let T_3 := dt * dt * dt / 3
  let Phi2 : Matrix (Fin 6) (Fin 6) K :=
    Matrix.of fun i j => if PhiPat i j then dt else kf.Phi i j
  let Q0 : Matrix (Fin 6) (Fin 6) K :=
    Matrix.of fun i j =>
      if QPosPat i j then T_3
      else if QCrossPat i j then T_2
      else if QVelPat i j then dt
      else kf.Q i j
  let Q2 : Matrix (Fin 6) (Fin 6) K := Matrix.of fun i j => Q0 i j * kf.plant_noise
  { kf with
    Phi := Phi2
    Q := Q2
    Sp := Phi2.mulVec kf.Sf
    Pp := Phi2 * kf.Pf * Phi2.transpose + Q2
    Meas_Time := current_time }

/-- `update_step(Z)`: innovation, innovation covariance, gain, posterior.
`np.linalg.inv(S)` raises on a singular `S`, hence the `Option`. -/
def CVFilter.update_step {K : Type} [Field K] [DecidableEq K] (kf : CVFilter K)
    (Zm : Fin 3 → K) : Option (CVFilter K) :=
  let Inn := Zm - kf.H.mulVec kf.Sp
  let S := kf.H * kf.Pp * kf.H.transpose + kf.R
  if det3 S = 0 then none
  else
    let Kg := kf.Pp * kf.H.transpose * inv3 S
    some { kf with
      Sf := kf.Sp + Kg.mulVec Inn
      Pf := (1 - Kg * kf.H) * kf.Pp }

/-- The claim's state-transition matrix: the 6x6 identity with
`Phi[0,3] = Phi[1,4] = Phi[2,5] = dt`. -/
def PhiClaim (K : Type) [Field K] (dt : K) : Matrix (Fin 6) (Fin 6) K :=
  Matrix.of fun i j => if PhiPat i j then dt else if i = j then 1 else 0

/-- The process-noise matrix the source actually builds (before the
`plant_noise` scaling): diagonal position entries `dt³/3`, cross entries
`dt²/2`, diagonal velocity entries `dt`, zero elsewhere. -/
def QBuilt (K : Type) [Field K] (dt : K) : Matrix (Fin 6) (Fin 6) K :=
  Matrix.of fun i j =>
    if QPosPat i j then dt * dt * dt / 3
    else if QCrossPat i j then dt * dt / 2
    else if QVelPat i j then dt
    else 0

/-- One `initialize_filter_state` call with its `(x, y, z, vx, vy, vz, time)`
arguments packed in a tuple. -/
def initStep (s : CVFilter ℚ) (a : ℚ × ℚ × ℚ × ℚ × ℚ × ℚ × ℚ) : CVFilter ℚ :=
  s.initialize_filter_state a.1 a.2.1 a.2.2.1 a.2.2.2.1 a.2.2.2.2.1
    a.2.2.2.2.2.1 a.2.2.2.2.2.2

/-- The fold in C7's "every sequence of calls to initialize_filter_state":
the calls applied in order starting from the freshly constructed filter. -/
def applyInits (calls : List (ℚ × ℚ × ℚ × ℚ × ℚ × ℚ × ℚ)) : CVFilter ℚ :=
  calls.foldl initStep (CVFilter.mkInit ℚ)

/-! ## Associator (of.py lines 157-189)

`generate_hypotheses` copies the cluster list; `compute_hypothesis_likelihood`
is the Gaussian weight `exp(-1/2 · ν^T S⁻¹ ν)`, raising `LinAlgError` through
`np.linalg.inv(S)` when `S` is singular (modelled as `none`); `jpda` returns
`None` on an empty hypothesis list before any likelihood is computed,
otherwise normalizes the weights (uniform fallback on an exactly zero sum)
and returns the hypothesis at `np.argmax(marginal_probabilities)`, the first
index attaining the maximum. In the model, `jpda`'s outer `Option` is the
raised exception (`none` = `LinAlgError` escaping the list comprehension) and
the inner one is the Python return value (`some none` = `return None`). -/

/-- `generate_hypotheses(clusters)`: appends every cluster to a fresh list,
i.e. the identity on the list. -/
def generate_hypotheses {α : Type} (clusters : List α) : List α := clusters

/-- `compute_hypothesis_likelihood(hypothesis, kalman_filter)`: the hypothesis
is a measurement tuple whose first three components form the measurement
vector `Z`. `np.linalg.inv(S)` raises on a singular `S`, hence the
`Option`. -/
noncomputable def compute_hypothesis_likelihood (kf : CVFilter ℝ) (h : Meas ℝ) :
    Option ℝ :=
  let Zh : Fin 3 → ℝ := ![h.1, h.2.1, h.2.2.1]
  let Inn := Zh - kf.H.mulVec kf.Sp
  let S := kf.H * kf.Pp * kf.H.transpose + kf.R
  if det3 S = 0 then none
  else some (Real.exp (-(1 / 2) * Matrix.dotProduct Inn ((inv3 S).mulVec Inn)))

/-- `l.foldl max x`, the running maximum `np.argmax` compares against. -/
def maxOf {K : Type} [LinearOrder K] (x : K) (l : List K) : K := l.foldl max x

/-- `np.argmax`: the first index at which a list attains its maximum
(0 for the empty list, as a degenerate case the source never hits). -/
def argmaxIdx {K : Type} [LinearOrder K] : List K → ℕ
  | [] => 0
  | [_] => 0
  | x :: y :: ys => if x < maxOf y ys then argmaxIdx (y :: ys) + 1 else 0

/-- `jpda(clusters, kalman_filter)` of of.py. The empty check precedes the
likelihood list comprehension (so an empty list returns `None` even for a
singular `S`); the comprehension is `mapM` over `Option`, propagating the
first raised `LinAlgError` as the outer `none`. -/
noncomputable def jpda (clusters : List (Meas ℝ)) (kalman_filter : CVFilter ℝ) :
    Option (Option (Meas ℝ)) :=
  let hypotheses := generate_hypotheses clusters
  if hypotheses.isEmpty then some none
  else
    match hypotheses.mapM (compute_hypothesis_likelihood kalman_filter) with
    | none => none
    | some hypothesis_likelihoods =>
        let total_likelihood := hypothesis_likelihoods.sum
        let marginal_probabilities :=
          if total_likelihood = 0 then hypotheses.map fun _ => 1 / (hypotheses.length : ℝ)
          else hypothesis_likelihoods.map fun likelihood => likelihood / total_likelihood
        some (hypotheses.get? (argmaxIdx marginal_probabilities))

/-! ## Coordinate transforms (of.py lines 191-215) -/

/-- `math.atan2(y, x)` (C convention, `atan2(+0, x<0) = π`). -/
noncomputable def atan2 (y x : ℝ) : ℝ :=
  if 0 < x then Real.arctan (y / x)
  else if x < 0 then
    (if 0 ≤ y then Real.arctan (y / x) + Real.pi else Real.arctan (y / x) - Real.pi)
  else if 0 < y then Real.pi / 2
  else if y < 0 then -(Real.pi / 2)
  else 0

/-- `sph2cart(az, el, r)`: angles in degrees, azimuth measured from +y
toward +x. -/
noncomputable def sph2cart (az el r : ℝ) : ℝ × ℝ × ℝ :=
  (r * Real.cos (el * Real.pi / 180) * Real.sin (az * Real.pi / 180),
   r * Real.cos (el * Real.pi / 180) * Real.cos (az * Real.pi / 180),
   r * Real.sin (el * Real.pi / 180))

/-- `cart2sph(x, y, z)`: the azimuth branch on the sign of `x`, degree
conversion, then the two sequential wrap adjustments. -/
noncomputable def cart2sph (x y z : ℝ) : ℝ × ℝ × ℝ :=
  let r := Real.sqrt (x ^ 2 + y ^ 2 + z ^ 2)
  let el := atan2 z (Real.sqrt (x ^ 2 + y ^ 2)) * 180 / Real.pi
  let az0 := atan2 y x
  let az1 := if 0 < x then Real.pi / 2 - az0 else 3 * Real.pi / 2 - az0
  let az2 := az1 * 180 / Real.pi
  let az3 := if az2 < 0 then 360 + az2 else az2
  let az4 := if 360 < az3 then az3 - 360 else az3
  (r, az4, el)

/-! ## Track manager (test1.py lines 93-121)

Python returns the `Track` object by reference and the caller mutates it in
place; the model passes the index of the returned track and applies the
mutation through the manager. -/

structure Track where
  track_id : ℕ
  state : String
  measurements : List (Meas ℚ)

/-- `Track.__init__(track_id)`. -/
def Track.mkNew (i : ℕ) : Track := ⟨i, "free", []⟩

/-- `Track.assign_measurement(measurement)`. -/
def Track.assign_measurement (tr : Track) (m : Meas ℚ) : Track :=
  { tr with state := "occupied", measurements := tr.measurements ++ [m] }

/-- `Track.release()`. -/
def Track.release (tr : Track) : Track :=
  { tr with state := "free", measurements := [] }

structure TrackManager where
  tracks : List Track

/-- `TrackManager.add_track()`: appends a FREE track with
`id = len(tracks) + 1`. -/
def TrackManager.add_track (tm : TrackManager) : TrackManager :=
  { tracks := tm.tracks ++ [Track.mkNew (tm.tracks.length + 1)] }

/-- Index of the first track in list order whose state is `"free"`. -/
def findFreeIdx : List Track → Option ℕ
  | [] => none
  | tr :: rest =>
      if tr.state = "free" then some 0 else (findFreeIdx rest).map (· + 1)

/-- `TrackManager.get_free_track()`: the first FREE track in list order, or a
freshly appended one; the returned reference is modelled by its index. -/
def TrackManager.get_free_track (tm : TrackManager) : TrackManager × ℕ :=
  match findFreeIdx tm.tracks with
  | some i => (tm, i)
  | none =>
      let tm2 := tm.add_track
      (tm2, tm2.tracks.length - 1)

/-- The caller's `track.assign_measurement(m)` on the track at index `i`,
seen through the manager's list. -/
def TrackManager.assign (tm : TrackManager) (i : ℕ) (m : Meas ℚ) : TrackManager :=
  match tm.tracks.get? i with
  | some tr => { tracks := tm.tracks.set i (tr.assign_measurement m) }
  | none => tm

/-- The caller's `track.release()` on the track at index `i`. -/
def TrackManager.releaseAt (tm : TrackManager) (i : ℕ) : TrackManager :=
  match tm.tracks.get? i with
  | some tr => { tracks := tm.tracks.set i tr.release }
  | none => tm

/-- One externally visible `TrackManager` operation. -/
inductive TMOp
  | addTrack : TMOp
  | getFree : TMOp
  | assignTo : ℕ → Meas ℚ → TMOp
  | releaseTrack : ℕ → TMOp

/-- Run one operation (for `getFree`, the state change only). -/
def TMOp.run (tm : TrackManager) : TMOp → TrackManager
  | .addTrack => tm.add_track
  | .getFree => tm.get_free_track.1
  | .assignTo i m => tm.assign i m
  | .releaseTrack i => tm.releaseAt i

/-- Ids are unique, contiguous and 1-based: the track stored at list
position `i` carries id `i + 1`. -/
def IdsOK (tm : TrackManager) : Prop :=
  ∀ (i : ℕ) (h : i < tm.tracks.length), (tm.tracks.get ⟨i, h⟩).track_id = i + 1

/-! ## Lemmas and claim theorems -/

lemma fmgLoop_join {K : Type} [LinearOrderedField K] (maxd : K) :
    ∀ (rest : List (Meas K)) (groups : List (List (Meas K))) (cur : List (Meas K)) (base : K),
      (fmgLoop maxd rest groups cur base).flatten = groups.flatten ++ cur ++ rest := by
  intro rest
  induction rest with
  | nil =>
      intro groups cur base
      by_cases h : cur.isEmpty
      · simp [fmgLoop, h, List.isEmpty_iff.mp h]
      · simp [fmgLoop, h]
  | cons m rest ih =>
      intro groups cur base
      by_cases h : measTime m - base ≤ maxd
      · rw [fmgLoop, if_pos h, ih]
        simp
      · rw [fmgLoop, if_neg h, ih]
        simp

lemma fmgLoop_span {K : Type} [LinearOrderedField K] (maxd : K) (hmaxd : 0 ≤ maxd) :
    ∀ (rest : List (Meas K)) (groups : List (List (Meas K))) (cur : List (Meas K)) (base : K),
      (∀ g ∈ groups, SpanOK maxd g) → cur ≠ [] →
      (∀ x ∈ cur.head?, measTime x = base) →
      (∀ m ∈ cur, measTime m - base ≤ maxd) →
      ∀ g ∈ fmgLoop maxd rest groups cur base, SpanOK maxd g := by
  intro rest
  induction rest with
  | nil =>
      intro groups cur base hgroups hcur hhead hmem g hg
      rw [fmgLoop, if_neg (by simpa [List.isEmpty_iff] using hcur)] at hg
      rcases List.mem_append.mp hg with hg | hg
      · exact hgroups g hg
      · rcases List.mem_singleton.mp hg with rfl
        intro x hx m hm
        have hx' := hhead x hx
        rw [hx']
        exact hmem m hm
  | cons m rest ih =>
      intro groups cur base hgroups hcur hhead hmem g hg
      by_cases h : measTime m - base ≤ maxd
      · rw [fmgLoop, if_pos h] at hg
        refine ih groups (cur ++ [m]) base hgroups (by simp) ?_ ?_ g hg
        · intro x hx
          rcases cur with _ | ⟨c, cs⟩
          · exact absurd rfl hcur
          · exact hhead x (by simpa using hx)
        · intro m' hm'
          rcases List.mem_append.mp hm' with hm' | hm'
          · exact hmem m' hm'
          · rcases List.mem_singleton.mp hm' with rfl
            exact h
      · rw [fmgLoop, if_neg h] at hg
        refine ih (groups ++ [cur]) [m] (measTime m) ?_ (by simp) ?_ ?_ g hg
        · intro g' hg'
          rcases List.mem_append.mp hg' with hg' | hg'
          · exact hgroups g' hg'
          · rcases List.mem_singleton.mp hg' with rfl
            intro x hx m' hm'
            have hx' := hhead x hx
            rw [hx']
            exact hmem m' hm'
        · intro x hx
          cases (by simpa using hx : m = x)
          rfl
        · intro m' hm'
          rcases List.mem_singleton.mp hm' with rfl
          simpa using hmaxd

/-- C3: for a non-empty detection list sorted non-decreasingly by timestamp,
`form_measurement_groups` succeeds and returns a partition: the concatenation
of the groups in order is the input (hence no detection lands in two groups),
every group spans at most `max_time_diff` from its first element's timestamp
(the threshold is inclusive), and on the spec's boundary example
[0.000, 0.049, 0.050, 0.101] with `max_time_diff = 0.050` the groups are
[[0.000, 0.049, 0.050], [0.101]]. -/
theorem form_measurement_groups_partition
    (measurements : List (Meas ℚ)) (maxd : ℚ)
    (hne : measurements ≠ [])
    (hsorted : List.Chain' (fun a b => measTime a ≤ measTime b) measurements)
    (hmaxd : 0 ≤ maxd) :
    (∃ groups, form_measurement_groups measurements maxd = some groups ∧
        groups.flatten = measurements ∧
        ∀ g ∈ groups, SpanOK maxd g) ∧
      form_measurement_groups
          [((0 : ℚ), 0, 0, 0), (0, 0, 0, 49/1000), (0, 0, 0, 1/20), (0, 0, 0, 101/1000)]
          (1/20)
        = some [[((0 : ℚ), 0, 0, 0), (0, 0, 0, 49/1000), (0, 0, 0, 1/20)],
            [(0, 0, 0, 101/1000)]] := by
  constructor
  · rcases measurements with _ | ⟨m0, rest⟩
    · exact absurd rfl hne
    · refine ⟨fmgLoop maxd (m0 :: rest) [] [] (measTime m0), rfl, ?_, ?_⟩
      · rw [fmgLoop_join]
        simp
      · have hstep : fmgLoop maxd (m0 :: rest) [] [] (measTime m0)
            = fmgLoop maxd rest [] [m0] (measTime m0) := by
          rw [fmgLoop, if_pos (by simpa using hmaxd)]
          rfl
        rw [hstep]
        refine fmgLoop_span maxd hmaxd rest [] [m0] (measTime m0)
          (by simp) (by simp) ?_ ?_
        · intro x hx
          cases (by simpa using hx : m0 = x)
          rfl
        · intro m hm
          rcases List.mem_singleton.mp hm with rfl
          simpa using hmaxd
  · norm_num [form_measurement_groups, fmgLoop, measTime]

/-- Witness for C3 at a concrete sorted two-element input. -/
theorem form_measurement_groups_partition_witness :
    (([((0 : ℚ), 0, 0, 0), (0, 0, 0, 49/1000)] : List (Meas ℚ)) ≠ []) ∧
      (∃ groups,
        form_measurement_groups [((0 : ℚ), 0, 0, 0), (0, 0, 0, 49/1000)] (1/20)
          = some groups ∧
        groups.flatten = [((0 : ℚ), 0, 0, 0), (0, 0, 0, 49/1000)] ∧
        ∀ g ∈ groups, SpanOK (1/20) g) :=
  ⟨by simp,
    (form_measurement_groups_partition [((0 : ℚ), 0, 0, 0), (0, 0, 0, 49/1000)] (1/20)
      (by simp) (by norm_num [List.chain'_cons, measTime]) (by norm_num)).1⟩

/-- C9: the claim (and the spec's `EmptyStream` error rule) says grouping an
empty stream yields an empty output and no error, but the source reads
`measurements[0][3]` before the loop, so the empty input raises `IndexError`
instead: the model returns `none`, not `some []`. -/
theorem form_measurement_groups_empty_crash :
    ∀ maxd : ℚ, form_measurement_groups ([] : List (Meas ℚ)) maxd = none := by
  intro maxd
  rfl

/-- C1 (amended in the Q entries): with `dt = t - t_prev`, `predict_step`
computes `Sp = Φ·Sf` and `Pp = Φ·Pf·Φᵀ + Q` where `Φ` is the identity with
`Φ[0,3] = Φ[1,4] = Φ[2,5] = dt` and where `Q`, before the `plant_noise`
scaling, has diagonal position entries `dt³/3` (not `dt³` as claimed),
velocity entries `dt` and cross entries `dt²/2`; it sets `t_meas = t` and
leaves `t_prev` unchanged. The hypotheses say the persistent `Phi` and `Q`
buffers hold only their written patterns (true from construction on). -/
theorem predict_step_formulas (kf : CVFilter ℚ) (t : ℚ)
    (hPhi : ∀ i j, ¬PhiPat i j → kf.Phi i j = (1 : Matrix (Fin 6) (Fin 6) ℚ) i j)
    (hQ : ∀ i j, ¬QPosPat i j → ¬QCrossPat i j → ¬QVelPat i j → kf.Q i j = 0) :
    (kf.predict_step t).Sp = (PhiClaim ℚ (t - kf.prev_Time)).mulVec kf.Sf ∧
    (kf.predict_step t).Pp
      = PhiClaim ℚ (t - kf.prev_Time) * kf.Pf * (PhiClaim ℚ (t - kf.prev_Time)).transpose
        + Matrix.of (fun i j => QBuilt ℚ (t - kf.prev_Time) i j * kf.plant_noise) ∧
    (kf.predict_step t).Q
      = Matrix.of (fun i j => QBuilt ℚ (t - kf.prev_Time) i j * kf.plant_noise) ∧
    (kf.predict_step t).Phi = PhiClaim ℚ (t - kf.prev_Time) ∧
    (kf.predict_step t).Meas_Time = t ∧
    (kf.predict_step t).prev_Time = kf.prev_Time := by
  have hPhiEq : (Matrix.of fun i j =>
      if PhiPat i j then t - kf.prev_Time else kf.Phi i j)
      = PhiClaim ℚ (t - kf.prev_Time) := by
    ext i j
    by_cases h : PhiPat i j
    · simp [PhiClaim, h]
    · simp only [Matrix.of_apply, PhiClaim, if_neg h]
      rw [hPhi i j h, Matrix.one_apply]
  have hQEq : (Matrix.of fun i j =>
      if QPosPat i j then (t - kf.prev_Time) * (t - kf.prev_Time) * (t - kf.prev_Time) / 3
      else if QCrossPat i j then (t - kf.prev_Time) * (t - kf.prev_Time) / 2
      else if QVelPat i j then t - kf.prev_Time
      else kf.Q i j) = QBuilt ℚ (t - kf.prev_Time) := by
    ext i j
    by_cases h1 : QPosPat i j
    · simp [QBuilt, h1]
    · by_cases h2 : QCrossPat i j
      · simp [QBuilt, h1, h2]
      · by_cases h3 : QVelPat i j
        · simp [QBuilt, h1, h2, h3]
        · simp [QBuilt, h1, h2, h3, hQ i j h1 h2 h3]
  refine ⟨?_, ?_, ?_, ?_, rfl, rfl⟩ <;>
    simp only [CVFilter.predict_step, hPhiEq, hQEq]

/-- Witness for C1 at the freshly constructed filter and `t = 1`. -/
theorem predict_step_formulas_witness :
    (∀ i j, ¬PhiPat i j → (CVFilter.mkInit ℚ).Phi i j = (1 : Matrix (Fin 6) (Fin 6) ℚ) i j) ∧
    (∀ i j, ¬QPosPat i j → ¬QCrossPat i j → ¬QVelPat i j → (CVFilter.mkInit ℚ).Q i j = 0) ∧
    ((CVFilter.mkInit ℚ).predict_step 1).Meas_Time = 1 := by
  have hPhi : ∀ i j, ¬PhiPat i j →
      (CVFilter.mkInit ℚ).Phi i j = (1 : Matrix (Fin 6) (Fin 6) ℚ) i j :=
    fun i j _ => rfl
  have hQ : ∀ i j, ¬QPosPat i j → ¬QCrossPat i j → ¬QVelPat i j →
      (CVFilter.mkInit ℚ).Q i j = 0 := by
    intro i j h1 h2 h3
    have hne : i ≠ j := by
      rintro rfl
      fin_cases i <;> simp_all
    exact Matrix.one_apply_ne hne
  exact ⟨hPhi, hQ, (predict_step_formulas (CVFilter.mkInit ℚ) 1 hPhi hQ).2.2.2.2.1⟩

/-- C1 counterexample to the claim as stated: at `dt = 1` the claimed
diagonal position entry of `Q` (scaled, `plant_noise·dt³ = 20`) disagrees
with what the code computes, `plant_noise·dt³/3 = 20/3`. -/
theorem predict_Q_cube_counterexample :
    ((CVFilter.mkInit ℚ).predict_step 1).Q 0 0 = 20 / 3 ∧
    ¬ ((CVFilter.mkInit ℚ).predict_step 1).Q 0 0 = 20 := by
  have h : ((CVFilter.mkInit ℚ).predict_step 1).Q 0 0 = 20 / 3 := by
    simp [CVFilter.predict_step, CVFilter.mkInit]
    norm_num
  refine ⟨h, ?_⟩
  rw [h]
  norm_num

/-- C6: on the second `initialize_filter_state` call (ONE_SEEN → TWO_SEEN)
with measurement `(x, y, z)` at time `t`, the recorded two-point velocity is
`(Z1 - Z2)/dt` componentwise with `Z2 = (x, y, z)` and `dt = t - t_meas`
(the pre-call `Meas_Time`), and the timestamps advance: `prev_Time` takes the
old `Meas_Time` and `Meas_Time` becomes `t`. -/
theorem initialize_second_velocity (kf kf2 : CVFilter ℚ) (x y z vx0 vy0 vz0 t : ℚ)
    (h1 : kf.first_rep_flag = true) (h2 : kf.second_rep_flag = false)
    (hne : t ≠ kf.Meas_Time)
    (hdef : kf2 = kf.initialize_filter_state x y z vx0 vy0 vz0 t) :
    kf2.vx = some ((kf.Z1 0 - x) / (t - kf.Meas_Time)) ∧
    kf2.vy = some ((kf.Z1 1 - y) / (t - kf.Meas_Time)) ∧
    kf2.vz = some ((kf.Z1 2 - z) / (t - kf.Meas_Time)) ∧
    kf2.Z2 = ![x, y, z] ∧
    kf2.prev_Time = kf.Meas_Time ∧
    kf2.Meas_Time = t ∧
    kf2.second_rep_flag = true := by
  subst hdef
  simp [CVFilter.initialize_filter_state, h1, h2]

/-- Witness for C6: first call at time 0, second call at time 1. -/
theorem initialize_second_velocity_witness :
    (((CVFilter.mkInit ℚ).initialize_filter_state 1 2 3 0 0 0 0).first_rep_flag = true) ∧
    (((CVFilter.mkInit ℚ).initialize_filter_state 1 2 3 0 0 0 0).second_rep_flag = false) ∧
    ((1 : ℚ) ≠ ((CVFilter.mkInit ℚ).initialize_filter_state 1 2 3 0 0 0 0).Meas_Time) ∧
    (((CVFilter.mkInit ℚ).initialize_filter_state 1 2 3 0 0 0 0).initialize_filter_state
        4 5 6 0 0 0 1).vx
      = some ((((CVFilter.mkInit ℚ).initialize_filter_state 1 2 3 0 0 0 0).Z1 0 - 4)
          / (1 - ((CVFilter.mkInit ℚ).initialize_filter_state 1 2 3 0 0 0 0).Meas_Time)) := by
  have h1 : ((CVFilter.mkInit ℚ).initialize_filter_state 1 2 3 0 0 0 0).first_rep_flag
      = true := rfl
  have h2 : ((CVFilter.mkInit ℚ).initialize_filter_state 1 2 3 0 0 0 0).second_rep_flag
      = false := rfl
  have hne : (1 : ℚ) ≠ ((CVFilter.mkInit ℚ).initialize_filter_state 1 2 3 0 0 0 0).Meas_Time := by
    simp [CVFilter.initialize_filter_state, CVFilter.mkInit]
  exact ⟨h1, h2, hne,
    (initialize_second_velocity _ _ 4 5 6 0 0 0 1 h1 h2 hne rfl).1⟩

lemma initStep_preserves (kf : CVFilter ℚ) (a : ℚ × ℚ × ℚ × ℚ × ℚ × ℚ × ℚ) :
    (initStep kf a).Sf 3 = kf.Sf 3 ∧ (initStep kf a).Sf 4 = kf.Sf 4 ∧
    (initStep kf a).Sf 5 = kf.Sf 5 ∧ (initStep kf a).Phi = kf.Phi := by
  unfold initStep CVFilter.initialize_filter_state
  by_cases h1 : kf.first_rep_flag <;> by_cases h2 : kf.second_rep_flag <;>
    simp [h1, h2]

lemma applyInits_inv (calls : List (ℚ × ℚ × ℚ × ℚ × ℚ × ℚ × ℚ)) :
    (applyInits calls).Sf 3 = 0 ∧ (applyInits calls).Sf 4 = 0 ∧
    (applyInits calls).Sf 5 = 0 ∧ (applyInits calls).Phi = 1 := by
  have main : ∀ (l : List (ℚ × ℚ × ℚ × ℚ × ℚ × ℚ × ℚ)) (s : CVFilter ℚ),
      s.Sf 3 = 0 → s.Sf 4 = 0 → s.Sf 5 = 0 → s.Phi = 1 →
      (l.foldl initStep s).Sf 3 = 0 ∧ (l.foldl initStep s).Sf 4 = 0 ∧
      (l.foldl initStep s).Sf 5 = 0 ∧ (l.foldl initStep s).Phi = 1 := by
    intro l
    induction l with
    | nil => intro s h3 h4 h5 hP; exact ⟨h3, h4, h5, hP⟩
    | cons a l ih =>
        intro s h3 h4 h5 hP
        have hpres := initStep_preserves s a
        exact ih (initStep s a) (hpres.1.trans h3) (hpres.2.1.trans h4)
          (hpres.2.2.1.trans h5) (hpres.2.2.2.trans hP)
  have h0 : (CVFilter.mkInit ℚ).Sf 3 = 0 ∧ (CVFilter.mkInit ℚ).Sf 4 = 0 ∧
      (CVFilter.mkInit ℚ).Sf 5 = 0 ∧ (CVFilter.mkInit ℚ).Phi = 1 := by
    refine ⟨rfl, rfl, rfl, rfl⟩
  exact main calls (CVFilter.mkInit ℚ) h0.1 h0.2.1 h0.2.2.1 h0.2.2.2

lemma predict_Sp_components (s : CVFilter ℚ) (t : ℚ)
    (h3 : s.Sf 3 = 0) (h4 : s.Sf 4 = 0) (h5 : s.Sf 5 = 0) (hPhi : s.Phi = 1) :
    (s.predict_step t).Sp 0 = s.Sf 0 ∧ (s.predict_step t).Sp 1 = s.Sf 1 ∧
    (s.predict_step t).Sp 2 = s.Sf 2 ∧ (s.predict_step t).Sp 3 = 0 ∧
    (s.predict_step t).Sp 4 = 0 ∧ (s.predict_step t).Sp 5 = 0 := by
  refine ⟨?_, ?_, ?_, ?_, ?_, ?_⟩ <;>
    simp [CVFilter.predict_step, Matrix.mulVec, Matrix.dotProduct, Fin.sum_univ_six,
      hPhi, Matrix.one_apply, h3, h4, h5, PhiPat]

/-- C7: the velocity components `Sf[3..5]` are never written:
`initialize_filter_state` leaves them unchanged in every phase, the two-point
velocity lives only in the separate attributes `vx`, `vy`, `vz`, which
`predict_step` and `update_step` neither read nor modify (substituting them
commutes with both operations), and therefore after any sequence of
initialization calls the first `predict_step` propagates `Sf` with zero
velocity: the predicted position equals the stored position and the
predicted velocity is zero. -/
theorem velocity_attributes_frame :
    (∀ (kf : CVFilter ℚ) (x y z a b c t : ℚ),
        (kf.initialize_filter_state x y z a b c t).Sf 3 = kf.Sf 3 ∧
        (kf.initialize_filter_state x y z a b c t).Sf 4 = kf.Sf 4 ∧
        (kf.initialize_filter_state x y z a b c t).Sf 5 = kf.Sf 5) ∧
    (∀ (kf : CVFilter ℚ) (t : ℚ) (v1 v2 v3 : Option ℚ),
        ({ kf with vx := v1, vy := v2, vz := v3 } : CVFilter ℚ).predict_step t
          = { kf.predict_step t with vx := v1, vy := v2, vz := v3 } ∧
        (kf.predict_step t).vx = kf.vx ∧ (kf.predict_step t).vy = kf.vy ∧
        (kf.predict_step t).vz = kf.vz) ∧
    (∀ (kf : CVFilter ℚ) (Zm : Fin 3 → ℚ) (v1 v2 v3 : Option ℚ),
        ({ kf with vx := v1, vy := v2, vz := v3 } : CVFilter ℚ).update_step Zm
          = (kf.update_step Zm).map fun s => { s with vx := v1, vy := v2, vz := v3 }) ∧
    (∀ calls : List (ℚ × ℚ × ℚ × ℚ × ℚ × ℚ × ℚ),
        (applyInits calls).Sf 3 = 0 ∧ (applyInits calls).Sf 4 = 0 ∧
        (applyInits calls).Sf 5 = 0 ∧
        ∀ t : ℚ,
          ((applyInits calls).predict_step t).Sp 0 = (applyInits calls).Sf 0 ∧
          ((applyInits calls).predict_step t).Sp 1 = (applyInits calls).Sf 1 ∧
          ((applyInits calls).predict_step t).Sp 2 = (applyInits calls).Sf 2 ∧
          ((applyInits calls).predict_step t).Sp 3 = 0 ∧
          ((applyInits calls).predict_step t).Sp 4 = 0 ∧
          ((applyInits calls).predict_step t).Sp 5 = 0) := by
  refine ⟨?_, ?_, ?_, ?_⟩
  · intro kf x y z a b c t
    exact (initStep_preserves kf (x, y, z, a, b, c, t)).imp id fun h => ⟨h.1, h.2.1⟩
  · intro kf t v1 v2 v3
    exact ⟨rfl, rfl, rfl, rfl⟩
  · intro kf Zm v1 v2 v3
    cases kf
    simp only [CVFilter.update_step]
    split <;> simp
  · intro calls
    obtain ⟨h3, h4, h5, hP⟩ := applyInits_inv calls
    refine ⟨h3, h4, h5, fun t => ?_⟩
    exact predict_Sp_components (applyInits calls) t h3 h4 h5 hP

/-- C8 counterexample to the claim as stated: with `t = -1` the time step
`dt = t - t_prev` is negative, yet `predict_step` raises nothing and returns
an ordinary prediction (the model is a total function translated from a body
with no dt check): `Meas_Time` is set to `-1` and `Pp[0,0]` receives
`1 + dt² + plant_noise·dt³/3 = -14/3`. -/
theorem predict_negative_dt_counterexample :
    ((-1 : ℚ) - (CVFilter.mkInit ℚ).prev_Time < 0) ∧
    ((CVFilter.mkInit ℚ).predict_step (-1)).Meas_Time = -1 ∧
    ((CVFilter.mkInit ℚ).predict_step (-1)).Sp 0 = 0 ∧
    ((CVFilter.mkInit ℚ).predict_step (-1)).Pp 0 0 = -14 / 3 := by
  refine ⟨by norm_num [CVFilter.mkInit], rfl, ?_, ?_⟩
  · simp [CVFilter.predict_step, CVFilter.mkInit, Matrix.mulVec_zero]
  · simp [CVFilter.predict_step, CVFilter.mkInit, Matrix.mul_one, Matrix.add_apply,
      Matrix.mul_apply, Matrix.transpose_apply, Matrix.one_apply, Fin.sum_univ_six,
      PhiPat, QPosPat, QCrossPat, QVelPat]
    norm_num

/-- C8 (amended): `predict_step` performs no time-monotonicity check; for a
negative `dt` it silently produces the prediction by the same formulas and
sets `Meas_Time = t` — there is no `NonMonotonicTime` error value anywhere in
the source. -/
theorem predict_negative_dt_no_error (kf : CVFilter ℚ) (t : ℚ)
    (hneg : t - kf.prev_Time < 0) :
    (kf.predict_step t).Meas_Time = t ∧
    (kf.predict_step t).Sp = (kf.predict_step t).Phi.mulVec kf.Sf ∧
    (kf.predict_step t).Pp
      = (kf.predict_step t).Phi * kf.Pf * ((kf.predict_step t).Phi).transpose
        + (kf.predict_step t).Q := by
  exact ⟨rfl, rfl, rfl⟩

/-- Witness for C8 at the freshly constructed filter and `t = -1`. -/
theorem predict_negative_dt_no_error_witness :
    ((-1 : ℚ) - (CVFilter.mkInit ℚ).prev_Time < 0) ∧
    ((CVFilter.mkInit ℚ).predict_step (-1)).Meas_Time = -1 :=
  ⟨by norm_num [CVFilter.mkInit],
    (predict_negative_dt_no_error (CVFilter.mkInit ℚ) (-1)
      (by norm_num [CVFilter.mkInit])).1⟩

lemma findFreeIdx_none (l : List Track) (hnone : ∀ tr ∈ l, tr.state ≠ "free") :
    findFreeIdx l = none := by
  induction l with
  | nil => rfl
  | cons tr rest ih =>
      rw [findFreeIdx, if_neg (hnone tr (List.mem_cons_self tr rest)),
        ih fun tr' h => hnone tr' (List.mem_cons_of_mem tr h)]
      rfl

lemma findFreeIdx_first (l : List Track) (i : ℕ) (h : i < l.length)
    (hfree : (l.get ⟨i, h⟩).state = "free")
    (hbefore : ∀ (j : ℕ) (hj : j < l.length), j < i → (l.get ⟨j, hj⟩).state ≠ "free") :
    findFreeIdx l = some i := by
  induction l generalizing i with
  | nil => exact absurd h (Nat.not_lt_zero i)
  | cons tr rest ih =>
      by_cases htr : tr.state = "free"
      · have hi : i = 0 := by
          by_contra hi0
          exact hbefore 0 (Nat.succ_pos _) (Nat.pos_of_ne_zero hi0) htr
        rw [findFreeIdx, if_pos htr, hi]
      · rcases i with _ | i
        · exact absurd hfree htr
        · rw [findFreeIdx, if_neg htr,
            ih i (Nat.lt_of_succ_lt_succ h) hfree fun j hj hcmp =>
              hbefore (j + 1) (Nat.succ_lt_succ hj) (Nat.succ_lt_succ hcmp)]
          rfl

lemma idsOK_add_track (tm : TrackManager) (h : IdsOK tm) : IdsOK tm.add_track := by
  intro i hi
  rcases Nat.lt_or_ge i tm.tracks.length with hlt | hge
  · simp only [TrackManager.add_track, List.get_eq_getElem] at hi ⊢
    rw [List.getElem_append_left hlt]
    exact h i hlt
  · have hieq : i = tm.tracks.length := by
      simp only [TrackManager.add_track, List.length_append, List.length_singleton] at hi
      omega
    subst hieq
    simp [TrackManager.add_track, Track.mkNew]

lemma idsOK_set_same_id (tm : TrackManager) (i : ℕ) (tr' : Track)
    (h : IdsOK tm) (hid : ∀ hi : i < tm.tracks.length, tr'.track_id = i + 1) :
    IdsOK ⟨tm.tracks.set i tr'⟩ := by
  intro j hj
  simp only [List.length_set] at hj
  simp only [List.get_eq_getElem, List.getElem_set]
  by_cases hij : i = j
  · rw [if_pos hij]
    exact hij ▸ hid (hij ▸ hj)
  · rw [if_neg hij]
    exact h j hj

lemma idsOK_run (tm : TrackManager) (h : IdsOK tm) (op : TMOp) :
    IdsOK (TMOp.run tm op) := by
  cases op with
  | addTrack => exact idsOK_add_track tm h
  | getFree =>
      rw [TMOp.run, TrackManager.get_free_track]
      rcases hfind : findFreeIdx tm.tracks with _ | i
      · exact idsOK_add_track tm h
      · exact h
  | assignTo i m =>
      rw [TMOp.run, TrackManager.assign]
      rcases hget : tm.tracks.get? i with _ | tr
      · exact h
      · refine idsOK_set_same_id tm i (tr.assign_measurement m) h fun hi => ?_
        have : tr.track_id = i + 1 := by
          have hg := List.get?_eq_get hi
          rw [hget] at hg
          exact (Option.some.inj hg) ▸ h i hi
        simpa [Track.assign_measurement] using this
  | releaseTrack i =>
      rw [TMOp.run, TrackManager.releaseAt]
      rcases hget : tm.tracks.get? i with _ | tr
      · exact h
      · refine idsOK_set_same_id tm i tr.release h fun hi => ?_
        have : tr.track_id = i + 1 := by
          have hg := List.get?_eq_get hi
          rw [hget] at hg
          exact (Option.some.inj hg) ▸ h i hi
        simpa [Track.release] using this

lemma idsOK_foldl (ops : List TMOp) :
    ∀ tm : TrackManager, IdsOK tm → IdsOK (ops.foldl TMOp.run tm) := by
  induction ops with
  | nil => intro tm h; exact h
  | cons op ops ih => intro tm h; exact ih (TMOp.run tm op) (idsOK_run tm h op)

/-- C10: under every sequence of `TrackManager` operations starting from the
empty manager, ids stay unique, contiguous and 1-based (`add_track` appends a
FREE track carrying id `size + 1`); `get_free_track` returns the first FREE
track in id order and, when none exists, appends a fresh FREE track and
returns that. -/
theorem track_manager_spec :
    (∀ ops : List TMOp, IdsOK (ops.foldl TMOp.run ⟨[]⟩)) ∧
    (∀ tm : TrackManager,
        tm.add_track.tracks = tm.tracks ++ [Track.mkNew (tm.tracks.length + 1)] ∧
        (Track.mkNew (tm.tracks.length + 1)).state = "free" ∧
        (Track.mkNew (tm.tracks.length + 1)).track_id = tm.tracks.length + 1) ∧
    (∀ tm : TrackManager,
        (∀ tr ∈ tm.tracks, tr.state ≠ "free") →
          tm.get_free_track = (tm.add_track, tm.tracks.length) ∧
          ∃ h : tm.tracks.length < tm.add_track.tracks.length,
            (tm.add_track.tracks.get ⟨tm.tracks.length, h⟩).state = "free" ∧
            (tm.add_track.tracks.get ⟨tm.tracks.length, h⟩).track_id
              = tm.tracks.length + 1) ∧
    (∀ (tm : TrackManager) (i : ℕ) (h : i < tm.tracks.length),
        (tm.tracks.get ⟨i, h⟩).state = "free" →
        (∀ (j : ℕ) (hj : j < tm.tracks.length), j < i →
          (tm.tracks.get ⟨j, hj⟩).state ≠ "free") →
        tm.get_free_track = (tm, i)) := by
  refine ⟨?_, ?_, ?_, ?_⟩
  · intro ops
    exact idsOK_foldl ops ⟨[]⟩ fun i hi => absurd hi (by simp)
  · intro tm
    exact ⟨rfl, rfl, rfl⟩
  · intro tm hnone
    have hfind := findFreeIdx_none tm.tracks hnone
    constructor
    · rw [TrackManager.get_free_track, hfind]
      simp [TrackManager.add_track]
    · refine ⟨by simp [TrackManager.add_track], ?_, ?_⟩ <;>
        simp [TrackManager.add_track, Track.mkNew]
  · intro tm i h hfree hbefore
    rw [TrackManager.get_free_track, findFreeIdx_first tm.tracks i h hfree hbefore]

/-- Witness for C10: a manager holding an occupied track then a free one;
`get_free_track` returns index 1. -/
theorem track_manager_spec_witness :
    (∀ hlt : (1 : ℕ) < (TrackManager.mk [⟨1, "occupied", []⟩, ⟨2, "free", []⟩]).tracks.length,
      ((TrackManager.mk [⟨1, "occupied", []⟩, ⟨2, "free", []⟩]).tracks.get
        ⟨1, hlt⟩).state = "free") ∧
    (TrackManager.mk [⟨1, "occupied", []⟩, ⟨2, "free", []⟩]).get_free_track
      = (TrackManager.mk [⟨1, "occupied", []⟩, ⟨2, "free", []⟩], 1) := by
  refine ⟨fun hlt => rfl, ?_⟩
  exact track_manager_spec.2.2.2 (TrackManager.mk [⟨1, "occupied", []⟩, ⟨2, "free", []⟩])
    1 (by simp) rfl (by
      intro j hj hji
      interval_cases j
      simp)

lemma maxOf_cons {K : Type} [LinearOrder K] (x y : K) (ys : List K) :
    maxOf x (y :: ys) = maxOf (max x y) ys := rfl

lemma le_maxOf_self {K : Type} [LinearOrder K] (x : K) (l : List K) : x ≤ maxOf x l := by
  induction l generalizing x with
  | nil => exact le_refl x
  | cons y ys ih => exact le_trans (le_max_left x y) (ih (max x y))

lemma le_maxOf_mem {K : Type} [LinearOrder K] (x : K) (l : List K) :
    ∀ z ∈ l, z ≤ maxOf x l := by
  induction l generalizing x with
  | nil => intro z hz; exact absurd hz (List.not_mem_nil z)
  | cons y ys ih =>
      intro z hz
      rcases List.mem_cons.mp hz with rfl | hz
      · exact le_trans (le_max_right x z) (le_maxOf_self (max x z) ys)
      · exact ih (max x y) z hz

lemma maxOf_choice {K : Type} [LinearOrder K] (x : K) (l : List K) :
    maxOf x l = x ∨ maxOf x l ∈ l := by
  induction l generalizing x with
  | nil => exact Or.inl rfl
  | cons y ys ih =>
      rcases ih (max x y) with h | h
      · rcases max_choice x y with hxy | hxy
        · exact Or.inl (by rw [maxOf_cons, h, hxy])
        · exact Or.inr (by rw [maxOf_cons, h, hxy]; exact List.mem_cons_self y ys)
      · exact Or.inr (List.mem_cons_of_mem y (by rwa [maxOf_cons]))

lemma cons_le_maxOf {K : Type} [LinearOrder K] (y : K) (ys : List K) :
    ∀ z ∈ y :: ys, z ≤ maxOf y ys := by
  intro z hz
  rcases List.mem_cons.mp hz with rfl | hz
  · exact le_maxOf_self z ys
  · exact le_maxOf_mem y ys z hz

/-- `np.argmax` semantics: the returned index is in range, the value there is
a maximum of the list, and every strictly earlier value is strictly smaller
(first occurrence of the maximum). -/
lemma argmaxIdx_spec {K : Type} [LinearOrder K] :
    ∀ l : List K, l ≠ [] →
      ∃ m, l.get? (argmaxIdx l) = some m ∧
        (∀ (j : ℕ) (v : K), l.get? j = some v → v ≤ m) ∧
        (∀ (j : ℕ) (v : K), j < argmaxIdx l → l.get? j = some v → v < m) := by
  intro l
  induction l with
  | nil => intro h; exact absurd rfl h
  | cons x xs ih =>
      intro _
      rcases xs with _ | ⟨y, ys⟩
      · refine ⟨x, rfl, ?_, ?_⟩
        · intro j v hj
          rcases j with _ | j
          · cases hj; exact le_refl x
          · simp at hj
        · intro j v hlt
          rw [show argmaxIdx [x] = 0 from rfl] at hlt
          exact absurd hlt (Nat.not_lt_zero j)
      · obtain ⟨m, hm, hle, hlt⟩ := ih (by simp)
        have hmem_le : ∀ z ∈ y :: ys, z ≤ m := by
          intro z hz
          obtain ⟨n, hn⟩ := List.mem_iff_get?.mp hz
          exact hle n z hn
        have hMm : maxOf y ys ≤ m := by
          rcases maxOf_choice y ys with h | h
          · rw [h]; exact hmem_le y (List.mem_cons_self y ys)
          · exact hmem_le _ (List.mem_cons_of_mem y h)
        by_cases hx : x < maxOf y ys
        · have hidx : argmaxIdx (x :: y :: ys) = argmaxIdx (y :: ys) + 1 := by
            rw [argmaxIdx, if_pos hx]
          refine ⟨m, by rw [hidx]; exact hm, ?_, ?_⟩
          · intro j v hj
            rcases j with _ | j
            · cases hj; exact le_of_lt (lt_of_lt_of_le hx hMm)
            · exact hle j v hj
          · intro j v hjlt hj
            rw [hidx] at hjlt
            rcases j with _ | j
            · cases hj; exact lt_of_lt_of_le hx hMm
            · exact hlt j v (Nat.lt_of_succ_lt_succ hjlt) hj
        · have hidx : argmaxIdx (x :: y :: ys) = 0 := by
            rw [argmaxIdx, if_neg hx]
          refine ⟨x, by rw [hidx]; rfl, ?_, ?_⟩
          · intro j v hj
            rcases j with _ | j
            · cases hj; exact le_refl x
            · have hvm : v ∈ y :: ys := List.get?_mem hj
              exact le_trans (cons_le_maxOf y ys v hvm) (le_of_not_lt hx)
          · intro j v hjlt
            rw [hidx] at hjlt
            exact absurd hjlt (Nat.not_lt_zero j)

lemma mapM_eq_some_map {α β : Type} (f : α → Option β) (g : α → β)
    (hfg : ∀ a, f a = some (g a)) : ∀ l : List α, l.mapM f = some (l.map g) := by
  intro l
  induction l with
  | nil => rfl
  | cons a as ih =>
      rw [List.mapM_cons, hfg a, ih]
      rfl

/-- C2: `jpda` returns `None` on an empty cluster list (the empty check
precedes the likelihood computation); on a non-empty list whose innovation
covariance `S` is singular it fails (`np.linalg.inv` raises `LinAlgError`
inside the first `compute_hypothesis_likelihood` call); otherwise, with the
per-hypothesis weights `exp(-1/2·νᵀS⁻¹ν)` computed by
`compute_hypothesis_likelihood`, it forms marginal probabilities by
normalizing the weights by their sum (uniform `1/n` when the sum is exactly
zero) and returns the hypothesis at the first index attaining the maximal
marginal probability (earliest position wins ties). -/
theorem jpda_selects_first_max (kf : CVFilter ℝ) (clusters : List (Meas ℝ)) :
    jpda [] kf = some none ∧
    (clusters ≠ [] → det3 (kf.H * kf.Pp * kf.H.transpose + kf.R) = 0 →
      jpda clusters kf = none) ∧
    (clusters ≠ [] → det3 (kf.H * kf.Pp * kf.H.transpose + kf.R) ≠ 0 →
      ∃ (ws : List ℝ) (i : ℕ) (best : Meas ℝ) (pi : ℝ),
        clusters.mapM (compute_hypothesis_likelihood kf) = some ws ∧
        ws = clusters.map (fun h => Real.exp (-(1 / 2) * Matrix.dotProduct
          (![h.1, h.2.1, h.2.2.1] - kf.H.mulVec kf.Sp)
          ((inv3 (kf.H * kf.Pp * kf.H.transpose + kf.R)).mulVec
            (![h.1, h.2.1, h.2.2.1] - kf.H.mulVec kf.Sp)))) ∧
        jpda clusters kf = some (some best) ∧
        clusters.get? i = some best ∧
        (if ws.sum = 0 then clusters.map fun _ => 1 / (clusters.length : ℝ)
          else ws.map fun w => w / ws.sum).get? i = some pi ∧
        (∀ (j : ℕ) (p : ℝ),
          (if ws.sum = 0 then clusters.map fun _ => 1 / (clusters.length : ℝ)
            else ws.map fun w => w / ws.sum).get? j = some p → p ≤ pi) ∧
        (∀ (j : ℕ) (p : ℝ), j < i →
          (if ws.sum = 0 then clusters.map fun _ => 1 / (clusters.length : ℝ)
            else ws.map fun w => w / ws.sum).get? j = some p → p < pi)) := by
  refine ⟨rfl, ?_, ?_⟩
  · intro hne hdet0
    rcases clusters with _ | ⟨c, cs⟩
    · exact absurd rfl hne
    · have hc : compute_hypothesis_likelihood kf c = none := by
        simp only [compute_hypothesis_likelihood]
        rw [if_pos hdet0]
      rw [jpda, generate_hypotheses,
        if_neg (by simp : ¬(List.isEmpty (c :: cs) = true)), List.mapM_cons, hc]
      rfl
  · intro hne hdet
    have hcomp : ∀ h : Meas ℝ, compute_hypothesis_likelihood kf h
        = some (Real.exp (-(1 / 2) * Matrix.dotProduct
          (![h.1, h.2.1, h.2.2.1] - kf.H.mulVec kf.Sp)
          ((inv3 (kf.H * kf.Pp * kf.H.transpose + kf.R)).mulVec
            (![h.1, h.2.1, h.2.2.1] - kf.H.mulVec kf.Sp)))) := by
      intro h
      simp only [compute_hypothesis_likelihood]
      rw [if_neg hdet]
    have hmapM : clusters.mapM (compute_hypothesis_likelihood kf)
        = some (clusters.map (fun h => Real.exp (-(1 / 2) * Matrix.dotProduct
          (![h.1, h.2.1, h.2.2.1] - kf.H.mulVec kf.Sp)
          ((inv3 (kf.H * kf.Pp * kf.H.transpose + kf.R)).mulVec
            (![h.1, h.2.1, h.2.2.1] - kf.H.mulVec kf.Sp))))) :=
      mapM_eq_some_map _ _ hcomp clusters
    set wsl : List ℝ := clusters.map (fun h => Real.exp (-(1 / 2) * Matrix.dotProduct
      (![h.1, h.2.1, h.2.2.1] - kf.H.mulVec kf.Sp)
      ((inv3 (kf.H * kf.Pp * kf.H.transpose + kf.R)).mulVec
        (![h.1, h.2.1, h.2.2.1] - kf.H.mulVec kf.Sp)))) with hwsl
    set probs : List ℝ :=
      (if wsl.sum = 0 then clusters.map fun _ => 1 / (clusters.length : ℝ)
        else wsl.map fun w => w / wsl.sum) with hprobs
    have hlen : probs.length = clusters.length := by
      rw [hprobs]
      by_cases h0 : wsl.sum = 0
      · rw [if_pos h0, List.length_map]
      · rw [if_neg h0, List.length_map, hwsl, List.length_map]
    have hprobsne : probs ≠ [] := by
      intro hnil
      apply hne
      have := hlen
      rw [hnil] at this
      exact List.length_eq_zero.mp this.symm
    obtain ⟨pi, hpi, hle, hlt⟩ := argmaxIdx_spec probs hprobsne
    have hilt : argmaxIdx probs < probs.length := by
      by_contra hge
      rw [List.get?_eq_none.mpr (le_of_not_lt hge)] at hpi
      cases hpi
    have hbest : clusters.get? (argmaxIdx probs)
        = some (clusters.get ⟨argmaxIdx probs, hlen ▸ hilt⟩) :=
      List.get?_eq_get (hlen ▸ hilt)
    have hjpda : jpda clusters kf = some (clusters.get? (argmaxIdx probs)) := by
      rw [jpda, generate_hypotheses, if_neg (by simpa [List.isEmpty_iff] using hne),
        hmapM]
    refine ⟨wsl, argmaxIdx probs, clusters.get ⟨argmaxIdx probs, hlen ▸ hilt⟩, pi,
      hmapM, rfl, ?_, hbest, hpi, hle, hlt⟩
    rw [hjpda, hbest]

/-- Witness for C2 at a single concrete hypothesis and a filter state with
`Pp = 0`, whose innovation covariance `S = I` is non-singular. -/
theorem jpda_selects_first_max_witness :
    (([((1 : ℝ), 0, 0, 0)] : List (Meas ℝ)) ≠ []) ∧
    det3 (({ CVFilter.mkInit ℝ with Pp := 0 } : CVFilter ℝ).H
        * ({ CVFilter.mkInit ℝ with Pp := 0 } : CVFilter ℝ).Pp
        * ({ CVFilter.mkInit ℝ with Pp := 0 } : CVFilter ℝ).H.transpose
        + ({ CVFilter.mkInit ℝ with Pp := 0 } : CVFilter ℝ).R) ≠ 0 ∧
    (∃ (ws : List ℝ) (i : ℕ) (best : Meas ℝ) (pi : ℝ),
      ([((1 : ℝ), 0, 0, 0)] : List (Meas ℝ)).mapM
          (compute_hypothesis_likelihood
            ({ CVFilter.mkInit ℝ with Pp := 0 } : CVFilter ℝ))
        = some ws ∧
      ws = ([((1 : ℝ), 0, 0, 0)] : List (Meas ℝ)).map (fun h =>
        Real.exp (-(1 / 2) * Matrix.dotProduct
          (![h.1, h.2.1, h.2.2.1]
            - ({ CVFilter.mkInit ℝ with Pp := 0 } : CVFilter ℝ).H.mulVec
              ({ CVFilter.mkInit ℝ with Pp := 0 } : CVFilter ℝ).Sp)
          ((inv3 (({ CVFilter.mkInit ℝ with Pp := 0 } : CVFilter ℝ).H
              * ({ CVFilter.mkInit ℝ with Pp := 0 } : CVFilter ℝ).Pp
              * ({ CVFilter.mkInit ℝ with Pp := 0 } : CVFilter ℝ).H.transpose
              + ({ CVFilter.mkInit ℝ with Pp := 0 } : CVFilter ℝ).R)).mulVec
            (![h.1, h.2.1, h.2.2.1]
              - ({ CVFilter.mkInit ℝ with Pp := 0 } : CVFilter ℝ).H.mulVec
                ({ CVFilter.mkInit ℝ with Pp := 0 } : CVFilter ℝ).Sp)))) ∧
      jpda [((1 : ℝ), 0, 0, 0)] ({ CVFilter.mkInit ℝ with Pp := 0 } : CVFilter ℝ)
        = some (some best) ∧
      ([((1 : ℝ), 0, 0, 0)] : List (Meas ℝ)).get? i = some best ∧
      (if ws.sum = 0 then ([((1 : ℝ), 0, 0, 0)] : List (Meas ℝ)).map
            fun _ => 1 / (([((1 : ℝ), 0, 0, 0)] : List (Meas ℝ)).length : ℝ)
        else ws.map fun w => w / ws.sum).get? i = some pi ∧
      (∀ (j : ℕ) (p : ℝ),
        (if ws.sum = 0 then ([((1 : ℝ), 0, 0, 0)] : List (Meas ℝ)).map
              fun _ => 1 / (([((1 : ℝ), 0, 0, 0)] : List (Meas ℝ)).length : ℝ)
          else ws.map fun w => w / ws.sum).get? j = some p → p ≤ pi) ∧
      (∀ (j : ℕ) (p : ℝ), j < i →
        (if ws.sum = 0 then ([((1 : ℝ), 0, 0, 0)] : List (Meas ℝ)).map
              fun _ => 1 / (([((1 : ℝ), 0, 0, 0)] : List (Meas ℝ)).length : ℝ)
          else ws.map fun w => w / ws.sum).get? j = some p → p < pi)) := by
  have hne : (([((1 : ℝ), 0, 0, 0)] : List (Meas ℝ)) ≠ []) := by simp
  have hS : ({ CVFilter.mkInit ℝ with Pp := 0 } : CVFilter ℝ).H
      * ({ CVFilter.mkInit ℝ with Pp := 0 } : CVFilter ℝ).Pp
      * ({ CVFilter.mkInit ℝ with Pp := 0 } : CVFilter ℝ).H.transpose
      + ({ CVFilter.mkInit ℝ with Pp := 0 } : CVFilter ℝ).R = 1 := by
    show (CVFilter.mkInit ℝ).H * 0 * (CVFilter.mkInit ℝ).H.transpose + 1 = 1
    rw [Matrix.mul_zero, Matrix.zero_mul, zero_add]
  have hdet : det3 (({ CVFilter.mkInit ℝ with Pp := 0 } : CVFilter ℝ).H
      * ({ CVFilter.mkInit ℝ with Pp := 0 } : CVFilter ℝ).Pp
      * ({ CVFilter.mkInit ℝ with Pp := 0 } : CVFilter ℝ).H.transpose
      + ({ CVFilter.mkInit ℝ with Pp := 0 } : CVFilter ℝ).R) ≠ 0 := by
    rw [hS]
    simp [det3, Matrix.one_apply]
  exact ⟨hne, hdet,
    (jpda_selects_first_max ({ CVFilter.mkInit ℝ with Pp := 0 } : CVFilter ℝ)
      [((1 : ℝ), 0, 0, 0)]).2.2 hne hdet⟩

lemma det3_eq_det {K : Type} [CommRing K] (A : Matrix (Fin 3) (Fin 3) K) :
    det3 A = A.det := by
  rw [Matrix.det_fin_three, det3]
  ring

lemma inv3_eq_inv {K : Type} [Field K] (A : Matrix (Fin 3) (Fin 3) K) :
    inv3 A = A⁻¹ := by
  rw [inv3, det3_eq_det, Matrix.inv_def, Ring.inverse_eq_inv]

lemma transpose_mulVec_dotProduct {m n : Type} [Fintype m] [Fintype n]
    (A : Matrix m n ℝ) (a : m → ℝ) (b : n → ℝ) :
    Matrix.dotProduct (A.transpose.mulVec a) b = Matrix.dotProduct a (A.mulVec b) := by
  rw [Matrix.mulVec_transpose, ← Matrix.dotProduct_mulVec]

/-- The posterior covariance `(1 - K·H)·Pp` of the Kalman update is positive
semidefinite whenever `Pp` and `R` are and `S = H·Pp·Hᵀ + R` is invertible:
`xᵀ·Pf·x = (x - Hᵀu)ᵀ·Pp·(x - Hᵀu) + uᵀ·R·u` with `u = S⁻¹·H·Pp·x`. -/
lemma kalman_posterior_posSemidef (P : Matrix (Fin 6) (Fin 6) ℝ)
    (Hm : Matrix (Fin 3) (Fin 6) ℝ) (Rm : Matrix (Fin 3) (Fin 3) ℝ)
    (hP : P.PosSemidef) (hR : Rm.PosSemidef)
    (hdet : (Hm * P * Hm.transpose + Rm).det ≠ 0) :
    ((1 - P * Hm.transpose * (Hm * P * Hm.transpose + Rm)⁻¹ * Hm) * P).PosSemidef := by
  set S : Matrix (Fin 3) (Fin 3) ℝ := Hm * P * Hm.transpose + Rm with hSdef
  have hSS : S * S⁻¹ = 1 := Matrix.mul_nonsing_inv S (isUnit_iff_ne_zero.mpr hdet)
  have hPt : P.transpose = P := by
    rw [← Matrix.conjTranspose_eq_transpose_of_trivial]
    exact hP.1
  have hRt : Rm.transpose = Rm := by
    rw [← Matrix.conjTranspose_eq_transpose_of_trivial]
    exact hR.1
  have hSt : S.transpose = S := by
    rw [hSdef, Matrix.transpose_add, Matrix.transpose_mul, Matrix.transpose_mul,
      Matrix.transpose_transpose, hPt, hRt, Matrix.mul_assoc]
  have hSinvT : (S⁻¹).transpose = S⁻¹ := by
    rw [Matrix.transpose_nonsing_inv, hSt]
  have hPf : (1 - P * Hm.transpose * S⁻¹ * Hm) * P
      = P - P * Hm.transpose * S⁻¹ * Hm * P := by
    rw [Matrix.sub_mul, Matrix.one_mul]
  rw [hPf]
  constructor
  · show (P - P * Hm.transpose * S⁻¹ * Hm * P).conjTranspose = _
    rw [Matrix.conjTranspose_eq_transpose_of_trivial]
    simp only [Matrix.transpose_sub, Matrix.transpose_mul, Matrix.transpose_transpose,
      hPt, hSinvT, Matrix.mul_assoc]
  · intro x
    have hstar : star x = x := by
      funext i
      simp
    rw [hstar]
    set p : Fin 6 → ℝ := P.mulVec x with hp
    set v : Fin 3 → ℝ := Hm.mulVec p with hv
    set u : Fin 3 → ℝ := (S⁻¹).mulVec v with hu
    set w : Fin 6 → ℝ := Hm.transpose.mulVec u with hw
    have hMx : (P * Hm.transpose * S⁻¹ * Hm * P).mulVec x = P.mulVec w := by
      rw [hw, hu, hv, hp]
      simp only [Matrix.mulVec_mulVec]
      rw [Matrix.mul_assoc, Matrix.mul_assoc, Matrix.mul_assoc]
    have hxPw : Matrix.dotProduct x (P.mulVec w) = Matrix.dotProduct p w := by
      rw [Matrix.dotProduct_mulVec, ← Matrix.mulVec_transpose, hPt, hp]
    have hpw : Matrix.dotProduct p w = Matrix.dotProduct u v := by
      rw [hw, Matrix.dotProduct_comm, transpose_mulVec_dotProduct, ← hv,
        Matrix.dotProduct_comm]
    have hwp : Matrix.dotProduct w p = Matrix.dotProduct u v := by
      rw [hw, transpose_mulVec_dotProduct, ← hv]
    have hwPw : Matrix.dotProduct w (P.mulVec w)
        = Matrix.dotProduct u (Hm.mulVec (P.mulVec w)) := by
      rw [hw, transpose_mulVec_dotProduct]
    have hHPw : Hm.mulVec (P.mulVec w) = ((Hm * P) * Hm.transpose).mulVec u := by
      rw [hw]
      simp only [Matrix.mulVec_mulVec]
      rw [Matrix.mul_assoc]
    have hSu : S.mulVec u = v := by
      rw [hu, Matrix.mulVec_mulVec, hSS, Matrix.one_mulVec]
    have hsum : Matrix.dotProduct w (P.mulVec w) + Matrix.dotProduct u (Rm.mulVec u)
        = Matrix.dotProduct u v := by
      rw [hwPw, hHPw, ← Matrix.dotProduct_add, ← Matrix.add_mulVec, ← hSdef, hSu]
    have key : Matrix.dotProduct x ((P - P * Hm.transpose * S⁻¹ * Hm * P).mulVec x)
        = Matrix.dotProduct (x - w) (P.mulVec (x - w))
          + Matrix.dotProduct u (Rm.mulVec u) := by
      rw [Matrix.sub_mulVec, Matrix.dotProduct_sub, hMx, hxPw, hpw]
      rw [Matrix.mulVec_sub, Matrix.sub_dotProduct, Matrix.dotProduct_sub,
        Matrix.dotProduct_sub, hxPw, hpw, ← hp, hwp]
      have hs := hsum
      linarith
    rw [key]
    have h1 : 0 ≤ Matrix.dotProduct (x - w) (P.mulVec (x - w)) := by
      have := hP.2 (x - w)
      have hstar2 : star (x - w) = x - w := by
        funext i
        simp
      rwa [hstar2] at this
    have h2 : 0 ≤ Matrix.dotProduct u (Rm.mulVec u) := by
      have := hR.2 u
      have hstar2 : star u = u := by
        funext i
        simp
      rwa [hstar2] at this
    linarith

/-- C5: whenever `update_step` succeeds (non-singular `S`) from a state with
positive semidefinite `Pp` and `R`, the posterior covariance
`Pf = (I - K·H)·Pp` is symmetric positive semidefinite; in particular all of
its eigenvalues are non-negative. -/
theorem update_step_Pf_posSemidef (kf kf2 : CVFilter ℝ) (Zm : Fin 3 → ℝ)
    (hPp : kf.Pp.PosSemidef) (hR : kf.R.PosSemidef)
    (hup : kf.update_step Zm = some kf2) :
    kf2.Pf.PosSemidef ∧ kf2.Pf.transpose = kf2.Pf ∧
    ∀ (hherm : kf2.Pf.IsHermitian) (i : Fin 6), 0 ≤ hherm.eigenvalues i := by
  simp only [CVFilter.update_step] at hup
  split at hup
  · cases hup
  · rename_i hdet
    obtain rfl : _ = kf2 := Option.some.inj hup
    have hdet' : (kf.H * kf.Pp * kf.H.transpose + kf.R).det ≠ 0 := by
      rwa [← det3_eq_det]
    have hpsd : ((1 - kf.Pp * kf.H.transpose
          * (kf.H * kf.Pp * kf.H.transpose + kf.R)⁻¹ * kf.H) * kf.Pp).PosSemidef :=
      kalman_posterior_posSemidef kf.Pp kf.H kf.R hPp hR hdet'
    have hPfval : ((1 : Matrix (Fin 6) (Fin 6) ℝ)
          - kf.Pp * kf.H.transpose * inv3 (kf.H * kf.Pp * kf.H.transpose + kf.R) * kf.H)
          * kf.Pp
        = (1 - kf.Pp * kf.H.transpose
            * (kf.H * kf.Pp * kf.H.transpose + kf.R)⁻¹ * kf.H) * kf.Pp := by
      rw [inv3_eq_inv]
    refine ⟨?_, ?_, ?_⟩
    · show ((1 - kf.Pp * kf.H.transpose * inv3 (kf.H * kf.Pp * kf.H.transpose + kf.R)
          * kf.H) * kf.Pp).PosSemidef
      rw [hPfval]
      exact hpsd
    · show ((1 - kf.Pp * kf.H.transpose * inv3 (kf.H * kf.Pp * kf.H.transpose + kf.R)
          * kf.H) * kf.Pp).transpose = _
      rw [hPfval, ← Matrix.conjTranspose_eq_transpose_of_trivial]
      exact hpsd.1
    · intro hherm i
      have hpsd2 : (CVFilter.mk kf.Sf
          ((1 - kf.Pp * kf.H.transpose * inv3 (kf.H * kf.Pp * kf.H.transpose + kf.R)
            * kf.H) * kf.Pp) kf.Sp kf.Pp kf.plant_noise kf.H kf.R kf.Meas_Time
          kf.prev_Time kf.Q kf.Phi kf.Z kf.Z1 kf.Z2 kf.first_rep_flag
          kf.second_rep_flag kf.gate_threshold kf.vx kf.vy kf.vz).Pf.PosSemidef := by
        show ((1 - kf.Pp * kf.H.transpose * inv3 (kf.H * kf.Pp * kf.H.transpose + kf.R)
            * kf.H) * kf.Pp).PosSemidef
        rw [hPfval]
        exact hpsd
      exact hpsd2.eigenvalues_nonneg i

/-- Witness for C5: from `Pp = 0` and `R = I` the update succeeds
(`S = I` is non-singular) and the theorem applies. -/
theorem update_step_Pf_posSemidef_witness :
    ({ CVFilter.mkInit ℝ with Pp := 0 } : CVFilter ℝ).Pp.PosSemidef ∧
    ({ CVFilter.mkInit ℝ with Pp := 0 } : CVFilter ℝ).R.PosSemidef ∧
    ∃ kf2, ({ CVFilter.mkInit ℝ with Pp := 0 } : CVFilter ℝ).update_step 0 = some kf2 ∧
      kf2.Pf.PosSemidef := by
  have hPp : ({ CVFilter.mkInit ℝ with Pp := 0 } : CVFilter ℝ).Pp.PosSemidef :=
    Matrix.PosSemidef.zero
  have hR : ({ CVFilter.mkInit ℝ with Pp := 0 } : CVFilter ℝ).R.PosSemidef :=
    Matrix.PosSemidef.one
  have hS : ({ CVFilter.mkInit ℝ with Pp := 0 } : CVFilter ℝ).H
        * ({ CVFilter.mkInit ℝ with Pp := 0 } : CVFilter ℝ).Pp
        * ({ CVFilter.mkInit ℝ with Pp := 0 } : CVFilter ℝ).H.transpose
        + ({ CVFilter.mkInit ℝ with Pp := 0 } : CVFilter ℝ).R
      = 1 := by
    show (CVFilter.mkInit ℝ).H * 0 * (CVFilter.mkInit ℝ).H.transpose + 1 = 1
    rw [Matrix.mul_zero, Matrix.zero_mul, zero_add]
  have hdet1 : det3 (1 : Matrix (Fin 3) (Fin 3) ℝ) = 1 := by
    simp [det3, Matrix.one_apply]
  have hup : ({ CVFilter.mkInit ℝ with Pp := 0 } : CVFilter ℝ).update_step 0
      = some { ({ CVFilter.mkInit ℝ with Pp := 0 } : CVFilter ℝ) with
          Sf := ({ CVFilter.mkInit ℝ with Pp := 0 } : CVFilter ℝ).Sp
            + (({ CVFilter.mkInit ℝ with Pp := 0 } : CVFilter ℝ).Pp
              * ({ CVFilter.mkInit ℝ with Pp := 0 } : CVFilter ℝ).H.transpose
              * inv3 1).mulVec
              ((0 : Fin 3 → ℝ) - ({ CVFilter.mkInit ℝ with Pp := 0 } : CVFilter ℝ).H.mulVec
                ({ CVFilter.mkInit ℝ with Pp := 0 } : CVFilter ℝ).Sp)
          Pf := (1 - ({ CVFilter.mkInit ℝ with Pp := 0 } : CVFilter ℝ).Pp
              * ({ CVFilter.mkInit ℝ with Pp := 0 } : CVFilter ℝ).H.transpose
              * inv3 1 * ({ CVFilter.mkInit ℝ with Pp := 0 } : CVFilter ℝ).H)
            * ({ CVFilter.mkInit ℝ with Pp := 0 } : CVFilter ℝ).Pp } := by
    simp only [CVFilter.update_step, hS]
    rw [if_neg (by rw [hdet1]; norm_num)]
  obtain ⟨kf2, hkf2⟩ : ∃ kf2,
      ({ CVFilter.mkInit ℝ with Pp := 0 } : CVFilter ℝ).update_step 0 = some kf2 :=
    ⟨_, hup⟩
  exact ⟨hPp, hR, kf2, hkf2,
    (update_step_Pf_posSemidef _ kf2 0 hPp hR hkf2).1⟩

lemma deg_rad_deg (w : ℝ) : w * Real.pi / 180 * 180 / Real.pi = w := by
  have hπ : Real.pi ≠ 0 := Real.pi_ne_zero
  field_simp

/-- C4 counterexample: at `az = 0, el = 0, r = 1` (so `x = 0`), the
`x ≤ 0` azimuth branch of `cart2sph` returns azimuth 180 instead of 0 — the
round-trip claimed for all `az ∈ [0, 360)` fails. -/
theorem roundtrip_counterexample :
    cart2sph (sph2cart 0 0 1).1 (sph2cart 0 0 1).2.1 (sph2cart 0 0 1).2.2
      = (1, 180, 0) ∧ (180 : ℝ) ≠ 0 := by
  constructor
  · have hx : sph2cart 0 0 1 = (0, 1, 0) := by
      simp [sph2cart]
    rw [hx]
    show cart2sph 0 1 0 = (1, 180, 0)
    have h180 : (3 * Real.pi / 2 - Real.pi / 2) * 180 / Real.pi = 180 := by
      have hπ : Real.pi ≠ 0 := Real.pi_ne_zero
      field_simp
      ring
    simp only [cart2sph, atan2]
    norm_num [Real.sqrt_one, Real.arctan_zero, Real.pi_pos, h180]
  · norm_num

/-- C4 (amended): the exact round-trip
`cart2sph (sph2cart az el r) = (r, az, el)` holds for `r > 0`,
`el ∈ (-90°, 90°)` and azimuth restricted to `az ∈ (0°, 180°)` (equivalently
`x > 0`); outside that azimuth range the `cart2sph` branch returns an azimuth
off by 180° (see the counterexample), so the claim's full range `[0°, 360°)`
is not attained. -/
theorem cart2sph_roundtrip_amended (az el r : ℝ)
    (haz0 : 0 < az) (haz1 : az < 180) (hel0 : -90 < el) (hel1 : el < 90) (hr : 0 < r) :
    cart2sph (sph2cart az el r).1 (sph2cart az el r).2.1 (sph2cart az el r).2.2
      = (r, az, el) := by
  have hπ : (0 : ℝ) < Real.pi := Real.pi_pos
  have hπne : Real.pi ≠ 0 := ne_of_gt hπ
  set A := az * Real.pi / 180 with hA
  set E := el * Real.pi / 180 with hE
  have hA0 : 0 < A := by
    rw [hA]
    positivity
  have hA1 : A < Real.pi := by
    rw [hA, div_lt_iff (by norm_num : (0:ℝ) < 180)]
    nlinarith [mul_pos (show (0:ℝ) < 180 - az by linarith) hπ]
  have hE1 : E < Real.pi / 2 := by
    rw [hE, div_lt_div_iff (by norm_num : (0:ℝ) < 180) (by norm_num : (0:ℝ) < 2)]
    nlinarith [mul_pos (show (0:ℝ) < 90 - el by linarith) hπ]
  have hE0 : -(Real.pi / 2) < E := by
    rw [hE, lt_div_iff (by norm_num : (0:ℝ) < 180)]
    nlinarith [mul_pos (show (0:ℝ) < el + 90 by linarith) hπ]
  have hcosE : 0 < Real.cos E := Real.cos_pos_of_mem_Ioo ⟨hE0, hE1⟩
  have hsinA : 0 < Real.sin A := Real.sin_pos_of_pos_of_lt_pi hA0 hA1
  have hrne : r ≠ 0 := ne_of_gt hr
  have hsph : sph2cart az el r
      = (r * Real.cos E * Real.sin A, r * Real.cos E * Real.cos A, r * Real.sin E) := by
    simp only [sph2cart]
  rw [hsph]
  show cart2sph (r * Real.cos E * Real.sin A) (r * Real.cos E * Real.cos A)
      (r * Real.sin E) = (r, az, el)
  have hx : 0 < r * Real.cos E * Real.sin A := mul_pos (mul_pos hr hcosE) hsinA
  have hsq : (r * Real.cos E * Real.sin A) ^ 2 + (r * Real.cos E * Real.cos A) ^ 2
      + (r * Real.sin E) ^ 2 = r ^ 2 := by
    have h1 := Real.sin_sq_add_cos_sq A
    have h2 := Real.sin_sq_add_cos_sq E
    linear_combination (r ^ 2 * Real.cos E ^ 2) * h1 + r ^ 2 * h2
  have hxy : (r * Real.cos E * Real.sin A) ^ 2 + (r * Real.cos E * Real.cos A) ^ 2
      = (r * Real.cos E) ^ 2 := by
    have h1 := Real.sin_sq_add_cos_sq A
    linear_combination (r ^ 2 * Real.cos E ^ 2) * h1
  have hel : atan2 (r * Real.sin E)
      (Real.sqrt ((r * Real.cos E * Real.sin A) ^ 2 + (r * Real.cos E * Real.cos A) ^ 2))
      * 180 / Real.pi = el := by
    rw [hxy, Real.sqrt_sq (le_of_lt (mul_pos hr hcosE)), atan2,
      if_pos (mul_pos hr hcosE),
      mul_div_mul_left (Real.sin E) (Real.cos E) hrne,
      ← Real.tan_eq_sin_div_cos, Real.arctan_tan hE0 hE1, hE, deg_rad_deg]
  have haz : (if 0 < r * Real.cos E * Real.sin A then
        Real.pi / 2 - atan2 (r * Real.cos E * Real.cos A) (r * Real.cos E * Real.sin A)
      else 3 * Real.pi / 2
        - atan2 (r * Real.cos E * Real.cos A) (r * Real.cos E * Real.sin A))
      * 180 / Real.pi = az := by
    rw [if_pos hx, atan2, if_pos hx]
    have hyx : r * Real.cos E * Real.cos A / (r * Real.cos E * Real.sin A)
        = Real.tan (Real.pi / 2 - A) := by
      rw [Real.tan_eq_sin_div_cos, Real.sin_pi_div_two_sub, Real.cos_pi_div_two_sub]
      rw [mul_div_mul_left (Real.cos A) (Real.sin A) (ne_of_gt (mul_pos hr hcosE))]
    rw [hyx, Real.arctan_tan (by linarith) (by linarith),
      show Real.pi / 2 - (Real.pi / 2 - A) = A by ring, hA, deg_rad_deg]
  simp only [cart2sph]
  rw [hsq, Real.sqrt_sq (le_of_lt hr), hel, haz,
    if_neg (not_lt.mpr (le_of_lt haz0)),
    if_neg (not_lt.mpr (by linarith : az ≤ 360))]

/-- Witness for C4's amended round-trip at `az = 90°, el = 0°, r = 1`. -/
theorem cart2sph_roundtrip_amended_witness :
    ((0 : ℝ) < 90) ∧ ((90 : ℝ) < 180) ∧ ((-90 : ℝ) < 0) ∧ ((0 : ℝ) < 90) ∧
    ((0 : ℝ) < 1) ∧
    cart2sph (sph2cart 90 0 1).1 (sph2cart 90 0 1).2.1 (sph2cart 90 0 1).2.2
      = (1, 90, 0) :=
  ⟨by norm_num, by norm_num, by norm_num, by norm_num, by norm_num,
    cart2sph_roundtrip_amended 90 0 1 (by norm_num) (by norm_num) (by norm_num)
      (by norm_num) (by norm_num)⟩

end Augg
